import Mathlib

/-!
Shallow embedding of the LEMAS weighted state aggregator from
`data_prep_functions.py` (functions `apply_weight`, `weighted_binary`,
`read_lemas_weight`) together with the draft helper `weighted_flags` from
`lemas_by_state.py`.

Modelling conventions:
* A pandas cell that may be NaN (after `na_values=[-8, -9]` decoding) is an
  `Option ℚ`; `none` is NaN.  Comparisons with NaN are false, products with
  NaN are NaN, and `Series.sum` skips NaN (`nansum`).
* Float division is modelled by `pdiv` on exact rationals with the IEEE
  special values `nan`, `inf`, `ninf` as explicit constructors: `0/0 = nan`,
  `x/0 = ±inf` for `x ≠ 0`.
* A row of the LEMAS table after `pd.read_csv(..., usecols=...)` and the
  `rename_columns` step is an `Agency`; field names keep the post-rename
  column names.  The presence of the `COMPLETE` column is a property of the
  whole file, passed as the `hasComplete : Bool` argument.
* The survey year, extracted by the source from the file name
  (`int(filepath[-8:-4])`), is passed as an explicit parameter.
* `groupby('STATE')` sorts its keys; `statesOf` deduplicates and sorts the
  state codes, and each per-state reduction is a filter over the rows.
-/

namespace Lemas

/-- IEEE-style result of a pandas float computation, over exact rationals. -/
inductive PFloat where
  | val (q : ℚ)
  | nan
  | inf
  | ninf
deriving DecidableEq

/-- Float division as numpy performs it on the two sums: `0/0` is NaN and
`x/0` is signed infinity for `x ≠ 0`. -/
def pdiv (a b : ℚ) : PFloat :=
  if b = 0 then (if a = 0 then .nan else if 0 < a then .inf else .ninf)
  else .val (a / b)

/-- NaN-propagating product of two cells (`df[col] * df[weight_col]`). -/
def mulOpt : Option ℚ → Option ℚ → Option ℚ
  | some a, some b => some (a * b)
  | _, _ => none

/-- Pandas `Series.sum` with its default `skipna=True`: NaN entries are
skipped and an all-NaN or empty column sums to `0`. -/
def nansum (l : List (Option ℚ)) : ℚ := (l.filterMap id).sum

/-- Pandas comparison `series > t`: false on NaN. -/
def optGT (o : Option ℚ) (t : ℚ) : Bool :=
  match o with
  | some q => decide (t < q)
  | none => false

/-- Pandas comparison `series >= t`: false on NaN. -/
def optGE (o : Option ℚ) (t : ℚ) : Bool :=
  match o with
  | some q => decide (t ≤ q)
  | none => false

/-- One row of the LEMAS extract after column selection and renaming
(`POL_CCRB`/`CIV_COMPL` to `CCRB`, `CP_SURV_POLICY`/`FDBK_POLICY` to
`CFDBK_POLICY`, `FINALWGT`/`SAMPLINGWEIGHT` to `WEIGHT`). -/
structure Agency where
  STATE : String
  STRATA : ℚ
  FTSWORN : Option ℚ
  PTSWORN : Option ℚ
  PERS_FEMALE : Option ℚ
  PERS_BLACK_FEM : Option ℚ
  PERS_BLACK_MALE : Option ℚ
  PERS_HISP_FEM : Option ℚ
  PERS_HISP_MALE : Option ℚ
  CCRB : Option ℚ
  CFDBK_POLICY : Option ℚ
  WEIGHT : Option ℚ
  COMPLETE : Option ℚ
deriving DecidableEq

/-- One output row of `read_lemas_weight`; `PCT_FEMALE`, `PCT_BLACK` and
`PCT_HISP` stand for the source columns `%_FEMALE`, `%_BLACK`, `%_HISP`. -/
structure StateRow where
  STATE : String
  YEAR : ℤ
  W_FTSWORN : ℚ
  PCT_FEMALE : PFloat
  PCT_BLACK : PFloat
  PCT_HISP : PFloat
  CCRB : PFloat
  CFDBK_POLICY : PFloat
deriving DecidableEq

/-- The row filter of line 218:
`((lemas['FTSWORN'] > 0)|(lemas['PTSWORN'] >= 2)) & (lemas['COMPLETE']>0.6)`. -/
def keepRow (a : Agency) : Bool :=
  (optGT a.FTSWORN 0 || optGE a.PTSWORN 2) && optGT a.COMPLETE 0.6

/-- Lines 217-218: the filter runs only when the `COMPLETE` column exists;
otherwise every row is kept. -/
def retainedRows (rows : List Agency) (hasComplete : Bool) : List Agency :=
  if hasComplete then rows.filter keepRow else rows

/-- The fixed dictionary `strata_map_2016_to_2020` of lines 205-210. -/
def strata_map_2016_to_2020 : List (ℚ × ℚ) :=
  [(101, 1), (102, 2), (103, 3), (104, 4), (105, 5), (106, 6), (107, 7),
   (201, 8), (202, 9), (203, 10), (204, 11), (205, 12),
   (206, 13), (207, 13),
   (301, 15)]

/-- `lemas['STRATA'].map(strata_map_2016_to_2020).fillna(lemas['STRATA'])`:
dictionary lookup with unmapped values passing through unchanged. -/
def remapStrata (q : ℚ) : ℚ :=
  match strata_map_2016_to_2020.find? (fun p => p.1 == q) with
  | some p => p.2
  | none => q

/-- Pandas `Series.max`: `none` for an empty column. -/
def seriesMax (l : List ℚ) : Option ℚ :=
  l.foldr (fun q m => match m with | none => some q | some m2 => some (max q m2)) none

/-- The guard `lemas['STRATA'].max() > 15` of line 224; on an empty frame the
max is NaN and the comparison is false. -/
def strataMaxGT15 (l : List ℚ) : Bool :=
  match seriesMax l with
  | some m => decide (15 < m)
  | none => false

/-- Lines 224-225: remap every `STRATA` value through the table, but only
when the maximum observed value exceeds 15. -/
def harmonizeRows (l : List Agency) : List Agency :=
  if strataMaxGT15 (l.map (·.STRATA)) then
    l.map (fun a => { a with STRATA := remapStrata a.STRATA })
  else l

/-- The sorted distinct state codes: the group keys of `groupby('STATE')`. -/
def statesOf (l : List Agency) : List String :=
  ((l.map (·.STATE)).dedup).mergeSort (fun a b => decide (a ≤ b))

/-- The rows of one `groupby('STATE')` group. -/
def groupRows (l : List Agency) (s : String) : List Agency :=
  l.filter (fun a => a.STATE == s)

/-- One per-state weighted sum: the `W_<col>` column built by
`apply_weight(lemas, ag_demo_cols, weight_col='WEIGHT')` (line 109:
`df[f"W_{col}"] = df[col] * df[weight_col]`) followed by the groupwise
`.sum()` of line 232. -/
def wsum (g : List Agency) (f : Agency → Option ℚ) : ℚ :=
  nansum (g.map (fun a => mulOpt (f a) a.WEIGHT))

/-- Lines 112-123, `weighted_binary(df, col, weight_col)`: the weight mass of
the rows whose flag equals 1 (`flagged = df[col] == 1`, false on NaN) divided
by the total weight mass of all rows. -/
def weighted_binary (flag weight : List (Option ℚ)) : PFloat :=
  pdiv (nansum (((flag.zip weight).filter (fun p => p.1 == some 1)).map (·.2)))
    (nansum weight)

/-- Lines 26-35 of `lemas_by_state.py`, `weighted_flags(df, col, weight_col)`:
like `weighted_binary` but the numerator keeps every row whose flag is
non-missing (`flagged = df[col].notna()`). -/
def weighted_flags (flag weight : List (Option ℚ)) : PFloat :=
  pdiv (nansum (((flag.zip weight).filter (fun p => p.1.isSome)).map (·.2)))
    (nansum weight)

/-- One output row: the per-state weighted sums of lines 227-232, the two
`weighted_binary` rates of lines 234-241, and the derived ratios of lines
247-253. -/
def stateRow (lemas : List Agency) (year : ℤ) (s : String) : StateRow where
  STATE := s
  YEAR := year
  W_FTSWORN := wsum (groupRows lemas s) (·.FTSWORN)
  PCT_FEMALE :=
    pdiv (wsum (groupRows lemas s) (·.PERS_FEMALE))
      (wsum (groupRows lemas s) (·.FTSWORN))
  PCT_BLACK :=
    pdiv (wsum (groupRows lemas s) (·.PERS_BLACK_FEM)
        + wsum (groupRows lemas s) (·.PERS_BLACK_MALE))
      (wsum (groupRows lemas s) (·.FTSWORN))
  PCT_HISP :=
    pdiv (wsum (groupRows lemas s) (·.PERS_HISP_FEM)
        + wsum (groupRows lemas s) (·.PERS_HISP_MALE))
      (wsum (groupRows lemas s) (·.FTSWORN))
  CCRB :=
    weighted_binary ((groupRows lemas s).map (·.CCRB))
      ((groupRows lemas s).map (·.WEIGHT))
  CFDBK_POLICY :=
    weighted_binary ((groupRows lemas s).map (·.CFDBK_POLICY))
      ((groupRows lemas s).map (·.WEIGHT))

/-- The pipeline from line 224 on: strata harmonization, grouping, weighted
sums, rates and ratios, producing one row per state. -/
def aggregateRetained (retained : List Agency) (year : ℤ) : List StateRow :=
  (statesOf (harmonizeRows retained)).map (stateRow (harmonizeRows retained) year)

/-- `read_lemas_weight` after the file read: quality filter (lines 217-218),
then the aggregation pipeline.  `year` is `int(filepath[-8:-4])`.  This total
variant is faithful whenever at least one row is retained; the zero-group
error path of the source is modelled by `read_lemas_weight_checked`. -/
def read_lemas_weight (rows : List Agency) (hasComplete : Bool) (year : ℤ) :
    List StateRow :=
  aggregateRetained (retainedRows rows hasComplete) year

/-- Lines 232-253 with the column bookkeeping of the zero-group case made
explicit.  With zero retained rows, `groupby('STATE', as_index=False).apply`
(lines 234-241) has no groups and never runs its lambda, so the columns
`CCRB` and `CFDBK_POLICY` it would create never exist; the merge of line 243
and the column lookups of lines 247-253 then fail with a KeyError.  With at
least one group the columns exist and the result is the per-state table. -/
def read_lemas_weight_checked (rows : List Agency) (hasComplete : Bool)
    (year : ℤ) : Except String (List StateRow) :=
  if retainedRows rows hasComplete = [] then
    .error "KeyError"
  else
    .ok (aggregateRetained (retainedRows rows hasComplete) year)

/-- A pandas DataFrame as `apply_weight` sees it: a partial map from column
names to columns of possibly-NaN cells. -/
def DataFrame : Type := String → Option (List (Option ℚ))

/-- Entrywise product of two index-aligned columns. -/
def mulColumn (x y : List (Option ℚ)) : List (Option ℚ) :=
  List.zipWith mulOpt x y

/-- Column assignment `df[name] = v`. -/
def setCol (df : DataFrame) (name : String) (v : List (Option ℚ)) : DataFrame :=
  fun m => if m = name then some v else df m

/-- Lines 98-110, `apply_weight(df, columns, weight_col, prefix)`: for each
`col` in `columns`, in order, assign
`df[f"{prefix}{col}"] = df[col] * df[weight_col]`.  A read of an absent
column is modelled by the empty column. -/
def apply_weight (df : DataFrame) (columns : List String)
    (weight_col pre : String) : DataFrame :=
  columns.foldl
    (fun acc col =>
      setCol acc (pre ++ col) (mulColumn ((acc col).getD []) ((acc weight_col).getD [])))
    df

/-- The strata lookup table of the claim, written as a plain case function:
101-107 to 1-7, 201-205 to 8-12, 206 and 207 to 13, 301 to 15, everything
else unchanged. -/
def claimRemap (q : ℚ) : ℚ :=
  if q = 101 then 1 else if q = 102 then 2 else if q = 103 then 3
  else if q = 104 then 4 else if q = 105 then 5 else if q = 106 then 6
  else if q = 107 then 7 else if q = 201 then 8 else if q = 202 then 9
  else if q = 203 then 10 else if q = 204 then 11 else if q = 205 then 12
  else if q = 206 then 13 else if q = 207 then 13 else if q = 301 then 15
  else q

/-- The claimed range invariant for an output cell: a value in the closed
interval [0,1], or the explicit undefined marker NaN. -/
def pfInUnit : PFloat → Bool
  | .val q => decide (0 ≤ q) && decide (q ≤ 1)
  | .nan => true
  | .inf => false
  | .ninf => false

/-- The data-model invariants a well-formed retained agency record satisfies:
all counts present and non-negative, each demographic subgroup no larger than
the full-time sworn total, and a strictly positive survey weight. -/
def GoodAgency (a : Agency) : Prop :=
  ∃ ft w pf bf bm hf hm : ℚ,
    a.FTSWORN = some ft ∧ a.WEIGHT = some w ∧ a.PERS_FEMALE = some pf ∧
    a.PERS_BLACK_FEM = some bf ∧ a.PERS_BLACK_MALE = some bm ∧
    a.PERS_HISP_FEM = some hf ∧ a.PERS_HISP_MALE = some hm ∧
    0 < w ∧ 0 ≤ ft ∧
    0 ≤ pf ∧ pf ≤ ft ∧
    0 ≤ bf ∧ 0 ≤ bm ∧ bf + bm ≤ ft ∧
    0 ≤ hf ∧ 0 ≤ hm ∧ hf + hm ≤ ft

/-- A blank agency record used as the base of the concrete test inputs. -/
def blankAgency : Agency :=
  { STATE := "XX", STRATA := 0, FTSWORN := none, PTSWORN := none,
    PERS_FEMALE := none, PERS_BLACK_FEM := none, PERS_BLACK_MALE := none,
    PERS_HISP_FEM := none, PERS_HISP_MALE := none, CCRB := none,
    CFDBK_POLICY := none, WEIGHT := none, COMPLETE := none }

/-- Rows with 2016-coded strata 207 and 301 and an already-compact value 5. -/
def exStrataRows : List Agency :=
  [{ blankAgency with STRATA := 207 },
   { blankAgency with STRATA := 5 },
   { blankAgency with STRATA := 301 }]

/-- Rows whose strata values are all already in the compact 1-15 coding. -/
def exLowStrata : List Agency :=
  [{ blankAgency with STRATA := 5 }, { blankAgency with STRATA := 13 }]

/-- A CA agency with weight 10 and CCRB flag 1, passing the quality filter. -/
def agencyCA1 : Agency :=
  { blankAgency with
      STATE := "CA", FTSWORN := some 5, COMPLETE := some 1,
      WEIGHT := some 10, CCRB := some 1 }

/-- A CA agency with weight 20 and missing CCRB flag, passing the filter. -/
def agencyCA2 : Agency :=
  { blankAgency with
      STATE := "CA", FTSWORN := some 5, COMPLETE := some 1,
      WEIGHT := some 20, CCRB := none }

/-- Two agencies in state CA with weights 10 and 20 and CCRB flags 1 and
missing. -/
def exC1 : List Agency := [agencyCA1, agencyCA2]

/-- The claim's example agency: no full-time sworn officers, one part-time
officer, perfect completion rate. -/
def dropAgency : Agency :=
  { blankAgency with
      STATE := "TX", FTSWORN := some 0, PTSWORN := some 1,
      COMPLETE := some 1, WEIGHT := some 3 }

/-- An agency failing the sworn-count predicate, from a file without the
completion-rate column. -/
def noCompleteAgency : Agency :=
  { blankAgency with
      STATE := "TX", FTSWORN := some 0, PTSWORN := some 0, WEIGHT := some 3 }

/-- An agency with all three filter fields present, passing the filter. -/
def exFilterAgency : Agency :=
  { blankAgency with
      FTSWORN := some 5, PTSWORN := some 0, COMPLETE := some 1 }

/-- An agency with no full-time sworn officers but a positive female count:
its state has zero weighted denominator and a nonzero numerator. -/
def agencyInf : Agency :=
  { blankAgency with
      STATE := "ZZ", FTSWORN := some 0, PTSWORN := some 2,
      PERS_FEMALE := some 10, PERS_BLACK_FEM := some 0, PERS_BLACK_MALE := some 0,
      PERS_HISP_FEM := some 0, PERS_HISP_MALE := some 0,
      WEIGHT := some 1, COMPLETE := some 1 }

/-- An agency with zero full-time sworn officers and zero demographic counts:
its state has 0/0 in every derived ratio. -/
def agencyZeroDen : Agency :=
  { blankAgency with
      STATE := "ZZ", FTSWORN := some 0, PTSWORN := some 2,
      PERS_FEMALE := some 0, PERS_BLACK_FEM := some 0, PERS_BLACK_MALE := some 0,
      PERS_HISP_FEM := some 0, PERS_HISP_MALE := some 0,
      WEIGHT := some 1, COMPLETE := some 1 }

/-- An agency reporting more female officers than full-time sworn officers:
nothing in the code prevents this, and the resulting share exceeds 1. -/
def agencyBig : Agency :=
  { blankAgency with
      STATE := "YY", FTSWORN := some 1, PTSWORN := some 0,
      PERS_FEMALE := some 10, PERS_BLACK_FEM := some 0, PERS_BLACK_MALE := some 0,
      PERS_HISP_FEM := some 0, PERS_HISP_MALE := some 0,
      WEIGHT := some 1, COMPLETE := some 1 }

/-- A well-formed agency: consistent counts and a positive weight. -/
def agencyGood : Agency :=
  { blankAgency with
      STATE := "GA", FTSWORN := some 10, PTSWORN := some 0,
      PERS_FEMALE := some 3, PERS_BLACK_FEM := some 1, PERS_BLACK_MALE := some 2,
      PERS_HISP_FEM := some 1, PERS_HISP_MALE := some 1,
      CCRB := some 1, CFDBK_POLICY := none,
      WEIGHT := some 2, COMPLETE := some 1 }

/-- A frame that already owns a column named `W_X` before `apply_weight`
runs. -/
def dfOverwrite : DataFrame := fun n =>
  if n = "X" then some [some 2]
  else if n = "W_X" then some [some 5]
  else if n = "FINALWGT" then some [some 3] else none

/-- A frame with no `W_`-prefixed columns. -/
def dfFresh : DataFrame := fun n =>
  if n = "X" then some [some 2]
  else if n = "FINALWGT" then some [some 3] else none

/-! Helper lemmas about `nansum`, grouping and harmonization. -/

lemma nansum_eq_sum_getD (l : List (Option ℚ)) :
    nansum l = (l.map (fun o => o.getD 0)).sum := by
  induction l with
  | nil => rfl
  | cons o t ih => cases o <;> simp [nansum, List.filterMap_cons] at ih ⊢ <;> simp [ih]

lemma nansum_map_getD {α : Type} (l : List α) (f : α → Option ℚ) :
    nansum (l.map f) = (l.map (fun a => (f a).getD 0)).sum := by
  rw [nansum_eq_sum_getD, List.map_map]
  rfl

lemma nansum_perm {l₁ l₂ : List (Option ℚ)} (h : l₁.Perm l₂) :
    nansum l₁ = nansum l₂ :=
  (h.filterMap id).sum_eq

lemma nansum_append (l₁ l₂ : List (Option ℚ)) :
    nansum (l₁ ++ l₂) = nansum l₁ + nansum l₂ := by
  simp [nansum, List.filterMap_append]

lemma nansum_nonneg {l : List (Option ℚ)} (h : ∀ o ∈ l, 0 ≤ o.getD 0) :
    0 ≤ nansum l := by
  rw [nansum_eq_sum_getD]
  exact List.sum_nonneg (by simpa using h)

/-- Summing a filtered sublist keeps the total no larger, when all cells are
non-negative. -/
lemma nansum_filter_map_le {α : Type} (l : List α) (p : α → Bool)
    (f : α → Option ℚ) (h : ∀ a ∈ l, 0 ≤ (f a).getD 0) :
    nansum ((l.filter p).map f) ≤ nansum (l.map f) := by
  have hperm : (l.filter p ++ l.filter (fun a => !p a)).Perm l :=
    List.filter_append_perm p l
  have h2 : nansum (l.map f)
      = nansum ((l.filter p).map f) + nansum ((l.filter (fun a => !p a)).map f) := by
    rw [← nansum_perm (hperm.map f), List.map_append, nansum_append]
  have h3 : 0 ≤ nansum ((l.filter (fun a => !p a)).map f) :=
    nansum_nonneg (by
      intro o ho
      rcases List.mem_map.mp ho with ⟨a, ha, rfl⟩
      exact h a (List.mem_of_mem_filter ha))
  linarith

/-- Partition law: summing the per-group sums over a duplicate-free covering
key list gives the total sum. -/
lemma sum_groups {α : Type} (key : α → String) (f : α → ℚ) :
    ∀ (keys : List String) (l : List α), keys.Nodup → (∀ a ∈ l, key a ∈ keys) →
      (keys.map (fun s => ((l.filter (fun a => key a == s)).map f).sum)).sum
        = (l.map f).sum := by
  intro keys
  induction keys with
  | nil =>
    intro l _ hcov
    have : l = [] := List.eq_nil_iff_forall_not_mem.mpr (fun a ha => by simpa using hcov a ha)
    simp [this]
  | cons k ks ih =>
    intro l hnd hcov
    have hndks : ks.Nodup := (List.nodup_cons.mp hnd).2
    have hknot : k ∉ ks := (List.nodup_cons.mp hnd).1
    have hsplit : (l.map f).sum
        = ((l.filter (fun a => key a == k)).map f).sum
          + ((l.filter (fun a => !(key a == k))).map f).sum := by
      have hperm := (List.filter_append_perm (fun a => key a == k) l).map f
      rw [← hperm.sum_eq, List.map_append, List.sum_append]
    have hcov2 : ∀ a ∈ l.filter (fun a => !(key a == k)), key a ∈ ks := by
      intro a ha
      have hm := List.mem_of_mem_filter ha
      have hne := List.of_mem_filter ha
      rcases List.mem_cons.mp (hcov a hm) with h | h
      · simp [h] at hne
      · exact h
    have hrest : ∀ s ∈ ks,
        ((l.filter (fun a => !(key a == k))).filter (fun a => key a == s)).map f
          = (l.filter (fun a => key a == s)).map f := by
      intro s hs
      congr 1
      rw [List.filter_filter]
      refine List.filter_congr ?_
      intro a _
      by_cases hks : key a = s
      · have hsk : s ≠ k := fun hsk => hknot (hsk ▸ hs)
        simp [hks, hsk]
      · simp [hks]
    calc ((k :: ks).map
            (fun s => ((l.filter (fun a => key a == s)).map f).sum)).sum
        = ((l.filter (fun a => key a == k)).map f).sum
          + (ks.map (fun s => ((l.filter (fun a => key a == s)).map f).sum)).sum := by
          simp
      _ = ((l.filter (fun a => key a == k)).map f).sum
          + (ks.map (fun s =>
              (((l.filter (fun a => !(key a == k))).filter (fun a => key a == s)).map f).sum)).sum := by
          congr 1
          refine congrArg List.sum (List.map_congr_left ?_)
          intro s hs
          rw [hrest s hs]
      _ = ((l.filter (fun a => key a == k)).map f).sum
          + ((l.filter (fun a => !(key a == k))).map f).sum := by
          rw [ih (l.filter (fun a => !(key a == k))) hndks hcov2]
      _ = (l.map f).sum := hsplit.symm

/-- The harmonization step only rewrites `STRATA`; any filter and map that do
not read `STRATA` see the same rows. -/
lemma harmonize_filter_map {β : Type} (l : List Agency) (p : Agency → Bool)
    (f : Agency → β)
    (hp : ∀ a q, p { a with STRATA := q } = p a)
    (hf : ∀ a q, f { a with STRATA := q } = f a) :
    ((harmonizeRows l).filter p).map f = (l.filter p).map f := by
  unfold harmonizeRows
  split
  · rw [List.filter_map, List.map_map]
    have hpcomp : (p ∘ fun a => { a with STRATA := remapStrata a.STRATA }) = p := by
      funext a
      exact hp a _
    rw [hpcomp]
    refine List.map_congr_left ?_
    intro a _
    exact hf a _
  · rfl

lemma harmonize_map {β : Type} (l : List Agency) (f : Agency → β)
    (hf : ∀ a q, f { a with STRATA := q } = f a) :
    (harmonizeRows l).map f = l.map f := by
  unfold harmonizeRows
  split
  · rw [List.map_map]
    refine List.map_congr_left ?_
    intro a _
    exact hf a _
  · rfl

lemma mem_statesOf {s : String} {l : List Agency} :
    s ∈ statesOf l ↔ s ∈ l.map (·.STATE) := by
  unfold statesOf
  rw [(List.mergeSort_perm _ _).mem_iff, List.mem_dedup]

lemma nodup_statesOf (l : List Agency) : (statesOf l).Nodup := by
  unfold statesOf
  exact ((List.mergeSort_perm _ _).nodup_iff).mpr (List.nodup_dedup _)

/-- Membership in the aggregator output: exactly the rows built by
`stateRow` at each group key. -/
lemma mem_read_lemas_weight {r : StateRow} {rows : List Agency}
    {hasComplete : Bool} {year : ℤ} :
    r ∈ read_lemas_weight rows hasComplete year ↔
      ∃ s ∈ statesOf (harmonizeRows (retainedRows rows hasComplete)),
        r = stateRow (harmonizeRows (retainedRows rows hasComplete)) year s := by
  unfold read_lemas_weight aggregateRetained
  rw [List.mem_map]
  constructor
  · rintro ⟨s, hs, rfl⟩
    exact ⟨s, hs, rfl⟩
  · rintro ⟨s, hs, rfl⟩
    exact ⟨s, hs, rfl⟩

/-- `weighted_binary` applied to the two columns of one group, rewritten as a
row filter. -/
lemma weighted_binary_group (g : List Agency) (f : Agency → Option ℚ) :
    weighted_binary (g.map f) (g.map (·.WEIGHT))
      = pdiv (nansum ((g.filter (fun a => f a == some 1)).map (·.WEIGHT)))
          (nansum (g.map (·.WEIGHT))) := by
  unfold weighted_binary
  rw [List.zip_map', List.filter_map, List.map_map]
  rfl

/-- Likewise for the draft helper `weighted_flags`. -/
lemma weighted_flags_group (g : List Agency) (f : Agency → Option ℚ) :
    weighted_flags (g.map f) (g.map (·.WEIGHT))
      = pdiv (nansum ((g.filter (fun a => (f a).isSome)).map (·.WEIGHT)))
          (nansum (g.map (·.WEIGHT))) := by
  unfold weighted_flags
  rw [List.zip_map', List.filter_map, List.map_map]
  rfl

/-- A ratio with numerator between 0 and the denominator is in the unit
interval, or NaN when both vanish. -/
lemma pfInUnit_pdiv {n d : ℚ} (h0 : 0 ≤ n) (hnd : n ≤ d) :
    pfInUnit (pdiv n d) = true := by
  unfold pdiv
  by_cases hd : d = 0
  · have hn : n = 0 := le_antisymm (hd ▸ hnd) h0
    simp [hd, hn, pfInUnit]
  · have hdpos : 0 < d := lt_of_le_of_ne (le_trans h0 hnd) (Ne.symm hd)
    simp only [hd, if_false, pfInUnit]
    have h1 : 0 ≤ n / d := div_nonneg h0 (le_of_lt hdpos)
    have h2 : n / d ≤ 1 := (div_le_one hdpos).mpr hnd
    simp [h1, h2]

lemma seriesMax_mem : ∀ {l : List ℚ} {m : ℚ}, seriesMax l = some m → m ∈ l := by
  intro l
  induction l with
  | nil => intro m h; simp [seriesMax] at h
  | cons q t ih =>
    intro m h
    have hq : seriesMax (q :: t)
        = match seriesMax t with
          | none => some q
          | some m2 => some (max q m2) := rfl
    rw [hq] at h
    cases ht : seriesMax t with
    | none =>
      rw [ht] at h
      simp at h
      simp [h]
    | some m2 =>
      rw [ht] at h
      simp at h
      rcases max_choice q m2 with hc | hc

      · rw [← h, hc]
        exact List.mem_cons_self q t
      · rw [← h, hc]
        exact List.mem_cons_of_mem q (ih ht)

lemma strataMaxGT15_false {l : List ℚ} (h : ∀ q ∈ l, q ≤ 15) :
    strataMaxGT15 l = false := by
  unfold strataMaxGT15
  cases hm : seriesMax l with
  | none => rfl
  | some m =>
    have h2 : ¬(15 < m) := not_lt.mpr (h m (seriesMax_mem hm))
    simp [h2]

/-- The dictionary lookup with fillna-passthrough agrees with the claim's
case-by-case table. -/
lemma remapStrata_eq_claimRemap (q : ℚ) : remapStrata q = claimRemap q := by
  by_cases h1 : q = 101
  · subst h1; decide
  by_cases h2 : q = 102
  · subst h2; decide
  by_cases h3 : q = 103
  · subst h3; decide
  by_cases h4 : q = 104
  · subst h4; decide
  by_cases h5 : q = 105
  · subst h5; decide
  by_cases h6 : q = 106
  · subst h6; decide
  by_cases h7 : q = 107
  · subst h7; decide
  by_cases h8 : q = 201
  · subst h8; decide
  by_cases h9 : q = 202
  · subst h9; decide
  by_cases h10 : q = 203
  · subst h10; decide
  by_cases h11 : q = 204
  · subst h11; decide
  by_cases h12 : q = 205
  · subst h12; decide
  by_cases h13 : q = 206
  · subst h13; decide
  by_cases h14 : q = 207
  · subst h14; decide
  by_cases h15 : q = 301
  · subst h15; decide
  have hf : strata_map_2016_to_2020.find? (fun p => p.1 == q) = none := by
    rw [List.find?_eq_none]
    intro p hp
    fin_cases hp <;> simp only [beq_iff_eq]
    exacts [fun hx => h1 hx.symm, fun hx => h2 hx.symm, fun hx => h3 hx.symm,
      fun hx => h4 hx.symm, fun hx => h5 hx.symm, fun hx => h6 hx.symm,
      fun hx => h7 hx.symm, fun hx => h8 hx.symm, fun hx => h9 hx.symm,
      fun hx => h10 hx.symm, fun hx => h11 hx.symm, fun hx => h12 hx.symm,
      fun hx => h13 hx.symm, fun hx => h14 hx.symm, fun hx => h15 hx.symm]
  have hleft : remapStrata q = q := by
    unfold remapStrata
    rw [hf]
  rw [hleft]
  simp [claimRemap, h1, h2, h3, h4, h5, h6, h7, h8, h9, h10, h11, h12, h13,
    h14, h15]

lemma remapStrata_idem (q : ℚ) :
    remapStrata (remapStrata q) = remapStrata q := by
  cases hf : strata_map_2016_to_2020.find? (fun p => p.1 == q) with
  | none =>
    have h1 : remapStrata q = q := by
      unfold remapStrata
      rw [hf]
    rw [h1]
    exact h1
  | some p =>
    have h1 : remapStrata q = p.2 := by
      unfold remapStrata
      rw [hf]
    rw [h1]
    exact (by decide : ∀ p ∈ strata_map_2016_to_2020, remapStrata p.2 = p.2)
      p (List.mem_of_find?_eq_some hf)

/-- C5: when the maximum observed strata value exceeds 15, every strata value
is remapped through the fixed table (101 to 1, ..., 206 and 207 to 13, 301 to
15) and values absent from the table pass through unchanged; in particular
207 maps to 13 and 5 stays 5. -/
theorem strata_values_remapped (l : List Agency)
    (h : strataMaxGT15 (l.map (·.STRATA)) = true) :
    (harmonizeRows l).map (·.STRATA) = l.map (fun a => claimRemap a.STRATA)
    ∧ claimRemap 207 = 13 ∧ claimRemap 5 = 5 := by
  refine ⟨?_, by decide, by decide⟩
  unfold harmonizeRows
  rw [if_pos h, List.map_map]
  refine List.map_congr_left ?_
  intro a _
  exact remapStrata_eq_claimRemap a.STRATA

/-- Witness for C5: on strata values [207, 5, 301] (maximum above 15) the
harmonization produces [13, 5, 15]. -/
theorem strata_values_remapped_witness :
    strataMaxGT15 (exStrataRows.map (·.STRATA)) = true
    ∧ (harmonizeRows exStrataRows).map (·.STRATA) = [13, 5, 15] := by
  have h : strataMaxGT15 (exStrataRows.map (·.STRATA)) = true := by decide
  refine ⟨h, ?_⟩
  rw [(strata_values_remapped exStrataRows h).1]
  decide

/-- C6: strata harmonization is a no-op on a code set whose values are all
at most 15, and harmonizing twice equals harmonizing once. -/
theorem strata_harmonize_idempotent (l : List Agency) :
    ((∀ a ∈ l, a.STRATA ≤ 15) → harmonizeRows l = l)
    ∧ harmonizeRows (harmonizeRows l) = harmonizeRows l := by
  have hupd : ∀ a : Agency,
      ({ ({ a with STRATA := remapStrata a.STRATA } : Agency) with
          STRATA := remapStrata ({ a with STRATA := remapStrata a.STRATA } : Agency).STRATA } : Agency)
        = { a with STRATA := remapStrata a.STRATA } := by
    intro a
    cases a
    simp [remapStrata_idem]
  constructor
  · intro h
    have hb : strataMaxGT15 (l.map (·.STRATA)) = false :=
      strataMaxGT15_false (by
        intro q hq
        rcases List.mem_map.mp hq with ⟨a, ha, rfl⟩
        exact h a ha)
    unfold harmonizeRows
    simp [hb]
  · by_cases hb : strataMaxGT15 (l.map (·.STRATA)) = true
    · have h1 : harmonizeRows l
          = l.map (fun a => { a with STRATA := remapStrata a.STRATA }) := by
        unfold harmonizeRows
        rw [if_pos hb]
      rw [h1]
      unfold harmonizeRows
      split
      · rw [List.map_map]
        refine List.map_congr_left ?_
        intro a _
        exact hupd a
      · rfl
    · have h1 : harmonizeRows l = l := by
        unfold harmonizeRows
        rw [if_neg hb]
      rw [h1]
      exact h1

/-- Witness for C6: the already-compact strata values [5, 13] are left
unchanged by harmonization. -/
theorem strata_harmonize_idempotent_witness :
    (∀ a ∈ exLowStrata, a.STRATA ≤ 15) ∧ harmonizeRows exLowStrata = exLowStrata :=
  ⟨by decide, (strata_harmonize_idempotent exLowStrata).1 (by decide)⟩

lemma harmonize_group_map {β : Type} (l : List Agency) (s : String)
    (f : Agency → β) (hf : ∀ a q, f { a with STRATA := q } = f a) :
    (groupRows (harmonizeRows l) s).map f = (groupRows l s).map f := by
  unfold groupRows
  exact harmonize_filter_map l _ f (fun a q => rfl) hf

lemma harmonize_group_filter_map {β : Type} (l : List Agency) (s : String)
    (p2 : Agency → Bool) (f : Agency → β)
    (hp2 : ∀ a q, p2 { a with STRATA := q } = p2 a)
    (hf : ∀ a q, f { a with STRATA := q } = f a) :
    ((groupRows (harmonizeRows l) s).filter p2).map f
      = ((groupRows l s).filter p2).map f := by
  unfold groupRows
  rw [List.filter_filter, List.filter_filter]
  exact harmonize_filter_map l _ f (fun a q => by simp only [hp2 a q]) hf

/-- C1: in every output state group, each flag rate (CCRB, CFDBK_POLICY)
equals the sum of survey weights over retained agencies of that state whose
flag equals 1 divided by the sum of survey weights over all retained agencies
of that state, agencies with a missing flag included in the denominator. -/
theorem flag_rates_weighted (rows : List Agency) (hasComplete : Bool)
    (year : ℤ) (r : StateRow)
    (hr : r ∈ read_lemas_weight rows hasComplete year) :
    r.CCRB
      = pdiv (nansum (((groupRows (retainedRows rows hasComplete) r.STATE).filter
            (fun a => a.CCRB == some 1)).map (·.WEIGHT)))
          (nansum ((groupRows (retainedRows rows hasComplete) r.STATE).map (·.WEIGHT)))
    ∧ r.CFDBK_POLICY
      = pdiv (nansum (((groupRows (retainedRows rows hasComplete) r.STATE).filter
            (fun a => a.CFDBK_POLICY == some 1)).map (·.WEIGHT)))
          (nansum ((groupRows (retainedRows rows hasComplete) r.STATE).map (·.WEIGHT))) := by
  rcases mem_read_lemas_weight.mp hr with ⟨s, hs, rfl⟩
  constructor
  · show weighted_binary
        ((groupRows (harmonizeRows (retainedRows rows hasComplete)) s).map (·.CCRB))
        ((groupRows (harmonizeRows (retainedRows rows hasComplete)) s).map (·.WEIGHT))
      = pdiv (nansum (((groupRows (retainedRows rows hasComplete) s).filter
            (fun a => a.CCRB == some 1)).map (·.WEIGHT)))
          (nansum ((groupRows (retainedRows rows hasComplete) s).map (·.WEIGHT)))
    rw [weighted_binary_group,
      harmonize_group_filter_map (retainedRows rows hasComplete) s
        (fun a => a.CCRB == some 1) (fun a => a.WEIGHT) (fun a q => rfl) (fun a q => rfl),
      harmonize_group_map (retainedRows rows hasComplete) s
        (fun a => a.WEIGHT) (fun a q => rfl)]
  · show weighted_binary
        ((groupRows (harmonizeRows (retainedRows rows hasComplete)) s).map (·.CFDBK_POLICY))
        ((groupRows (harmonizeRows (retainedRows rows hasComplete)) s).map (·.WEIGHT))
      = pdiv (nansum (((groupRows (retainedRows rows hasComplete) s).filter
            (fun a => a.CFDBK_POLICY == some 1)).map (·.WEIGHT)))
          (nansum ((groupRows (retainedRows rows hasComplete) s).map (·.WEIGHT)))
    rw [weighted_binary_group,
      harmonize_group_filter_map (retainedRows rows hasComplete) s
        (fun a => a.CFDBK_POLICY == some 1) (fun a => a.WEIGHT) (fun a q => rfl) (fun a q => rfl),
      harmonize_group_map (retainedRows rows hasComplete) s
        (fun a => a.WEIGHT) (fun a q => rfl)]

/-- Witness for C1: two CA agencies with weights 10 and 20 and CCRB flags
[1, missing] give a CCRB rate of 10/30 = 1/3. -/
theorem flag_rates_weighted_witness :
    ∃ r ∈ read_lemas_weight exC1 true 2016, r.CCRB = PFloat.val (1 / 3) := by
  have hstates : statesOf (harmonizeRows (retainedRows exC1 true)) = ["CA"] := by
    norm_num [statesOf, retainedRows, harmonizeRows, keepRow, optGT, optGE,
      strataMaxGT15, seriesMax, exC1, agencyCA1, agencyCA2, blankAgency,
      List.filter, List.foldr,
      List.dedup_cons_of_mem, List.dedup_cons_of_not_mem, List.mergeSort_singleton]
  have hmem : stateRow (harmonizeRows (retainedRows exC1 true)) 2016 "CA"
      ∈ read_lemas_weight exC1 true 2016 := by
    apply mem_read_lemas_weight.mpr
    exact ⟨"CA", by rw [hstates]; simp, rfl⟩
  refine ⟨_, hmem, ?_⟩
  rw [(flag_rates_weighted exC1 true 2016 _ hmem).1]
  norm_num [stateRow, groupRows, retainedRows, keepRow, optGT, optGE, exC1,
    agencyCA1, agencyCA2, blankAgency, List.filter, nansum, List.filterMap, pdiv]

/-- C10: the two weighted-rate helpers agree on columns whose flags are only
1 or missing, but differ on a flag value 0 carried by positive weight:
`weighted_flags` counts any non-missing flag in the numerator while
`weighted_binary` counts only flags equal to 1. -/
theorem weighted_flags_vs_weighted_binary :
    (∀ flag weight : List (Option ℚ),
        (∀ o ∈ flag, o = some 1 ∨ o = none) →
        weighted_flags flag weight = weighted_binary flag weight)
    ∧ (∃ flag weight : List (Option ℚ),
        (some 0 : Option ℚ) ∈ flag
        ∧ (∀ w ∈ weight, ∃ q, w = some q ∧ 0 < q)
        ∧ weighted_flags flag weight ≠ weighted_binary flag weight) := by
  constructor
  · intro flag weight h
    have hfilters : (flag.zip weight).filter (fun p => p.1.isSome)
        = (flag.zip weight).filter (fun p => p.1 == some 1) := by
      refine List.filter_congr ?_
      intro p hp
      rcases h p.1 (List.of_mem_zip hp).1 with h1 | h1 <;> simp [h1]
    unfold weighted_flags weighted_binary
    rw [hfilters]
  · refine ⟨[some 0], [some 1], by simp, ?_, ?_⟩
    · intro w hw
      simp only [List.mem_singleton] at hw
      exact ⟨1, hw, one_pos⟩
    · norm_num [weighted_flags, weighted_binary, nansum, pdiv, List.zip,
        List.zipWith, List.filter, List.filterMap]

/-- Witness for C10: on flags [1, missing] with weights [10, 20] the two
helpers coincide. -/
theorem weighted_flags_vs_weighted_binary_witness :
    (∀ o ∈ [some (1 : ℚ), none], o = some 1 ∨ o = none)
    ∧ weighted_flags [some 1, none] [some 10, some 20]
        = weighted_binary [some 1, none] [some 10, some 20] :=
  ⟨by decide, weighted_flags_vs_weighted_binary.1 _ _ (by decide)⟩

/-- C4: conservation law: the sum of the per-state `W_FTSWORN` column over
the whole output equals the sum over all retained agencies of
`FTSWORN * WEIGHT` (missing products skipped on both sides, as pandas
does). -/
theorem wftsworn_conservation (rows : List Agency) (hasComplete : Bool)
    (year : ℤ) :
    ((read_lemas_weight rows hasComplete year).map (·.W_FTSWORN)).sum
      = nansum ((retainedRows rows hasComplete).map
          (fun a => mulOpt a.FTSWORN a.WEIGHT)) := by
  set R := retainedRows rows hasComplete with hR
  set L := harmonizeRows R with hL
  have hmap : (read_lemas_weight rows hasComplete year).map (·.W_FTSWORN)
      = (statesOf L).map (fun s => wsum (groupRows L s) (·.FTSWORN)) := by
    unfold read_lemas_weight aggregateRetained
    rw [List.map_map]
    rfl
  rw [hmap]
  have hws : ∀ s, wsum (groupRows L s) (·.FTSWORN)
      = ((L.filter (fun a => a.STATE == s)).map
          (fun a => (mulOpt a.FTSWORN a.WEIGHT).getD 0)).sum := by
    intro s
    unfold wsum groupRows
    rw [nansum_map_getD]
  calc ((statesOf L).map (fun s => wsum (groupRows L s) (·.FTSWORN))).sum
      = ((statesOf L).map (fun s => ((L.filter (fun a => a.STATE == s)).map
          (fun a => (mulOpt a.FTSWORN a.WEIGHT).getD 0)).sum)).sum := by
        refine congrArg List.sum (List.map_congr_left ?_)
        intro s _
        exact hws s
    _ = (L.map (fun a => (mulOpt a.FTSWORN a.WEIGHT).getD 0)).sum := by
        refine sum_groups (fun a => a.STATE) _ (statesOf L) L (nodup_statesOf L) ?_
        intro a ha
        exact mem_statesOf.mpr (List.mem_map_of_mem _ ha)
    _ = nansum (L.map (fun a => mulOpt a.FTSWORN a.WEIGHT)) :=
        (nansum_map_getD _ _).symm
    _ = nansum (R.map (fun a => mulOpt a.FTSWORN a.WEIGHT)) := by
        rw [hL, harmonize_map R (fun a => mulOpt a.FTSWORN a.WEIGHT) (fun a q => rfl)]

/-- C2 counterexample: when the completion-rate column is absent, the code
performs no filtering at all.  This agency fails the claimed predicate (no
full-time sworn officers, fewer than 2 part-time), yet it is retained and
still produces an output row. -/
theorem filter_claim_counterexample :
    ((optGT noCompleteAgency.FTSWORN 0 || optGE noCompleteAgency.PTSWORN 2) = false)
    ∧ retainedRows [noCompleteAgency] false = [noCompleteAgency]
    ∧ read_lemas_weight [noCompleteAgency] false 2016 ≠ [] := by
  refine ⟨by decide, rfl, ?_⟩
  have hstates :
      statesOf (harmonizeRows (retainedRows [noCompleteAgency] false)) = ["TX"] := by
    norm_num [statesOf, retainedRows, harmonizeRows, strataMaxGT15, seriesMax,
      noCompleteAgency, blankAgency, List.foldr, List.dedup_cons_of_not_mem,
      List.mergeSort_singleton]
  unfold read_lemas_weight aggregateRetained
  rw [hstates]
  simp

/-- C2 (amended): when the completion-rate column is available, the
aggregator retains exactly the agencies with (FTSWORN > 0 or PTSWORN ≥ 2)
and COMPLETE > 0.6 — a missing value fails each comparison — and every
downstream quantity is computed from the retained rows only; the claim's
example agency (FTSWORN 0, PTSWORN 1, COMPLETE 1.0) is dropped and produces
no output.  When the column is absent, no filtering occurs at all and every
agency is retained. -/
theorem filter_retains_exactly (rows : List Agency) (year : ℤ) :
    read_lemas_weight rows true year = aggregateRetained (rows.filter keepRow) year
    ∧ (∀ a : Agency, ∀ ft pt c : ℚ,
        a.FTSWORN = some ft → a.PTSWORN = some pt → a.COMPLETE = some c →
        (keepRow a = true ↔ ((0 < ft ∨ 2 ≤ pt) ∧ (0.6 : ℚ) < c)))
    ∧ keepRow dropAgency = false
    ∧ read_lemas_weight [dropAgency] true year = []
    ∧ retainedRows rows false = rows := by
  refine ⟨rfl, ?_, by decide, ?_, rfl⟩
  · intro a ft pt c hft hpt hc
    unfold keepRow optGT optGE
    rw [hft, hpt, hc]
    simp
  · have hret : retainedRows [dropAgency] true = [] := by
      norm_num [retainedRows, keepRow, optGT, optGE, dropAgency, blankAgency,
        List.filter]
    unfold read_lemas_weight
    rw [hret]
    simp [aggregateRetained, harmonizeRows, strataMaxGT15, seriesMax, statesOf]

/-- Witness for C2: an agency with FTSWORN 5, PTSWORN 0 and COMPLETE 1
satisfies the filter. -/
theorem filter_retains_exactly_witness : keepRow exFilterAgency = true := by
  have h := (filter_retains_exactly [] 2016).2.1 exFilterAgency 5 0 1 rfl rfl rfl
  rw [h]
  norm_num

lemma wsum_harmonize (l : List Agency) (s : String) (f : Agency → Option ℚ)
    (hf : ∀ a q, f { a with STRATA := q } = f a) :
    wsum (groupRows (harmonizeRows l) s) f = wsum (groupRows l s) f := by
  unfold wsum
  rw [harmonize_group_map l s (fun a => mulOpt (f a) a.WEIGHT)
    (fun a q => by simp only [hf a q])]

/-- C3 counterexample: a state whose weighted full-time-sworn total is zero
while the weighted female count is 10 gets `%_FEMALE` equal to positive
infinity, not a missing/undefined marker. -/
theorem zero_denominator_infinity :
    (read_lemas_weight [agencyInf] true 2016).map (·.PCT_FEMALE) = [PFloat.inf]
    ∧ (read_lemas_weight [agencyInf] true 2016).map (·.W_FTSWORN) = [0]
    ∧ PFloat.inf ≠ PFloat.nan := by
  have hstates :
      statesOf (harmonizeRows (retainedRows [agencyInf] true)) = ["ZZ"] := by
    norm_num [statesOf, retainedRows, harmonizeRows, strataMaxGT15, seriesMax,
      keepRow, optGT, optGE, agencyInf, blankAgency, List.filter, List.foldr,
      List.dedup_cons_of_not_mem, List.mergeSort_singleton]
  refine ⟨?_, ?_, by decide⟩ <;>
    · unfold read_lemas_weight aggregateRetained
      rw [hstates]
      norm_num [stateRow, groupRows, wsum, mulOpt, nansum, retainedRows, keepRow,
        optGT, optGE, harmonizeRows, strataMaxGT15, seriesMax, agencyInf,
        blankAgency, List.filter, List.filterMap, List.foldr, pdiv]

/-- C3 (amended): for a state whose weighted full-time-sworn total is zero,
each derived ratio is NaN (the undefined marker) exactly when its weighted
numerator is also zero — with a nonzero numerator the code yields a signed
infinity instead (see the counterexample) — and aggregation still produces a
row for the state of every retained agency. -/
theorem zero_denominator_behavior (rows : List Agency) (hasComplete : Bool)
    (year : ℤ) :
    (∀ r ∈ read_lemas_weight rows hasComplete year,
      r.W_FTSWORN = 0 →
      ((wsum (groupRows (retainedRows rows hasComplete) r.STATE) (·.PERS_FEMALE) = 0 →
          r.PCT_FEMALE = PFloat.nan)
       ∧ (wsum (groupRows (retainedRows rows hasComplete) r.STATE) (·.PERS_BLACK_FEM)
            + wsum (groupRows (retainedRows rows hasComplete) r.STATE) (·.PERS_BLACK_MALE) = 0 →
          r.PCT_BLACK = PFloat.nan)
       ∧ (wsum (groupRows (retainedRows rows hasComplete) r.STATE) (·.PERS_HISP_FEM)
            + wsum (groupRows (retainedRows rows hasComplete) r.STATE) (·.PERS_HISP_MALE) = 0 →
          r.PCT_HISP = PFloat.nan)))
    ∧ (∀ a ∈ retainedRows rows hasComplete,
        ∃ r ∈ read_lemas_weight rows hasComplete year, r.STATE = a.STATE) := by
  constructor
  · intro r hr
    rcases mem_read_lemas_weight.mp hr with ⟨s, hs, rfl⟩
    have hden :
        (stateRow (harmonizeRows (retainedRows rows hasComplete)) year s).W_FTSWORN
          = wsum (groupRows (retainedRows rows hasComplete) s) (·.FTSWORN) :=
      wsum_harmonize (retainedRows rows hasComplete) s (fun a => a.FTSWORN)
        (fun a q => rfl)
    intro h0
    rw [hden] at h0
    refine ⟨?_, ?_, ?_⟩
    · intro hnum
      show pdiv (wsum (groupRows (harmonizeRows (retainedRows rows hasComplete)) s) (·.PERS_FEMALE))
          (wsum (groupRows (harmonizeRows (retainedRows rows hasComplete)) s) (·.FTSWORN))
        = PFloat.nan
      rw [wsum_harmonize (retainedRows rows hasComplete) s (fun a => a.PERS_FEMALE) (fun a q => rfl),
        wsum_harmonize (retainedRows rows hasComplete) s (fun a => a.FTSWORN) (fun a q => rfl)]
      rw [show wsum (groupRows (retainedRows rows hasComplete) s) (·.PERS_FEMALE) = 0 from hnum, h0]
      simp [pdiv]
    · intro hnum
      show pdiv (wsum (groupRows (harmonizeRows (retainedRows rows hasComplete)) s) (·.PERS_BLACK_FEM)
            + wsum (groupRows (harmonizeRows (retainedRows rows hasComplete)) s) (·.PERS_BLACK_MALE))
          (wsum (groupRows (harmonizeRows (retainedRows rows hasComplete)) s) (·.FTSWORN))
        = PFloat.nan
      have hnum2 : wsum (groupRows (retainedRows rows hasComplete) s) (·.PERS_BLACK_FEM)
          + wsum (groupRows (retainedRows rows hasComplete) s) (·.PERS_BLACK_MALE) = 0 := hnum
      rw [wsum_harmonize (retainedRows rows hasComplete) s (fun a => a.PERS_BLACK_FEM) (fun a q => rfl),
        wsum_harmonize (retainedRows rows hasComplete) s (fun a => a.PERS_BLACK_MALE) (fun a q => rfl),
        wsum_harmonize (retainedRows rows hasComplete) s (fun a => a.FTSWORN) (fun a q => rfl)]
      rw [hnum2, h0]
      simp [pdiv]
    · intro hnum
      show pdiv (wsum (groupRows (harmonizeRows (retainedRows rows hasComplete)) s) (·.PERS_HISP_FEM)
            + wsum (groupRows (harmonizeRows (retainedRows rows hasComplete)) s) (·.PERS_HISP_MALE))
          (wsum (groupRows (harmonizeRows (retainedRows rows hasComplete)) s) (·.FTSWORN))
        = PFloat.nan
      have hnum2 : wsum (groupRows (retainedRows rows hasComplete) s) (·.PERS_HISP_FEM)
          + wsum (groupRows (retainedRows rows hasComplete) s) (·.PERS_HISP_MALE) = 0 := hnum
      rw [wsum_harmonize (retainedRows rows hasComplete) s (fun a => a.PERS_HISP_FEM) (fun a q => rfl),
        wsum_harmonize (retainedRows rows hasComplete) s (fun a => a.PERS_HISP_MALE) (fun a q => rfl),
        wsum_harmonize (retainedRows rows hasComplete) s (fun a => a.FTSWORN) (fun a q => rfl)]
      rw [hnum2, h0]
      simp [pdiv]
  · intro a ha
    have hmem : a.STATE ∈ statesOf (harmonizeRows (retainedRows rows hasComplete)) := by
      apply mem_statesOf.mpr
      have : a.STATE ∈ (retainedRows rows hasComplete).map (·.STATE) :=
        List.mem_map_of_mem _ ha
      rcases List.mem_map.mp this with ⟨b, hb, hbs⟩
      rw [← hbs]
      have : (fun x => x.STATE) b
          ∈ (harmonizeRows (retainedRows rows hasComplete)).map (·.STATE) := by
        rw [harmonize_map (retainedRows rows hasComplete) (fun x => x.STATE)
          (fun x q => rfl)]
        exact List.mem_map_of_mem _ hb
      exact this
    exact ⟨stateRow (harmonizeRows (retainedRows rows hasComplete)) year a.STATE,
      mem_read_lemas_weight.mpr ⟨a.STATE, hmem, rfl⟩, rfl⟩

/-- Witness for C3: a state whose only retained agency has zero full-time
sworn officers and zero female count gets `%_FEMALE` equal to NaN. -/
theorem zero_denominator_behavior_witness :
    ∃ r ∈ read_lemas_weight [agencyZeroDen] true 2016,
      r.W_FTSWORN = 0 ∧ r.PCT_FEMALE = PFloat.nan := by
  have hstates :
      statesOf (harmonizeRows (retainedRows [agencyZeroDen] true)) = ["ZZ"] := by
    norm_num [statesOf, retainedRows, harmonizeRows, strataMaxGT15, seriesMax,
      keepRow, optGT, optGE, agencyZeroDen, blankAgency, List.filter, List.foldr,
      List.dedup_cons_of_not_mem, List.mergeSort_singleton]
  have hmem : stateRow (harmonizeRows (retainedRows [agencyZeroDen] true)) 2016 "ZZ"
      ∈ read_lemas_weight [agencyZeroDen] true 2016 :=
    mem_read_lemas_weight.mpr ⟨"ZZ", by rw [hstates]; simp, rfl⟩
  have hW : (stateRow (harmonizeRows (retainedRows [agencyZeroDen] true)) 2016 "ZZ").W_FTSWORN = 0 := by
    norm_num [stateRow, groupRows, wsum, mulOpt, nansum, retainedRows, keepRow,
      optGT, optGE, harmonizeRows, strataMaxGT15, seriesMax, agencyZeroDen,
      blankAgency, List.filter, List.filterMap, List.foldr]
  have hnum : wsum (groupRows (retainedRows [agencyZeroDen] true)
      ((stateRow (harmonizeRows (retainedRows [agencyZeroDen] true)) 2016 "ZZ").STATE))
      (·.PERS_FEMALE) = 0 := by
    norm_num [stateRow, groupRows, wsum, mulOpt, nansum, retainedRows, keepRow,
      optGT, optGE, agencyZeroDen, blankAgency, List.filter, List.filterMap]
  exact ⟨_, hmem, hW,
    ((zero_denominator_behavior [agencyZeroDen] true 2016).1 _ hmem hW).1 hnum⟩

lemma sum_map_add {α : Type} (l : List α) (f g : α → ℚ) :
    (l.map (fun a => f a + g a)).sum = (l.map f).sum + (l.map g).sum := by
  induction l with
  | nil => simp
  | cons a t ih =>
    simp only [List.map_cons, List.sum_cons, ih]
    ring

lemma wsum_nonneg (g : List Agency) (f : Agency → Option ℚ)
    (h : ∀ a ∈ g, 0 ≤ (mulOpt (f a) a.WEIGHT).getD 0) : 0 ≤ wsum g f := by
  unfold wsum
  rw [nansum_map_getD]
  refine List.sum_nonneg ?_
  intro x hx
  rcases List.mem_map.mp hx with ⟨a, ha, rfl⟩
  exact h a ha

lemma wsum_le_wsum (g : List Agency) (f1 f2 : Agency → Option ℚ)
    (h : ∀ a ∈ g, (mulOpt (f1 a) a.WEIGHT).getD 0 ≤ (mulOpt (f2 a) a.WEIGHT).getD 0) :
    wsum g f1 ≤ wsum g f2 := by
  unfold wsum
  rw [nansum_map_getD, nansum_map_getD]
  exact List.sum_le_sum h

lemma wsum_add_le_wsum (g : List Agency) (f1 f2 f3 : Agency → Option ℚ)
    (h : ∀ a ∈ g, (mulOpt (f1 a) a.WEIGHT).getD 0 + (mulOpt (f2 a) a.WEIGHT).getD 0
        ≤ (mulOpt (f3 a) a.WEIGHT).getD 0) :
    wsum g f1 + wsum g f2 ≤ wsum g f3 := by
  unfold wsum
  rw [nansum_map_getD, nansum_map_getD, nansum_map_getD,
    ← sum_map_add g (fun a => (mulOpt (f1 a) a.WEIGHT).getD 0)
      (fun a => (mulOpt (f2 a) a.WEIGHT).getD 0)]
  exact List.sum_le_sum h

/-- All cellwise bounds a well-formed agency guarantees for its weighted
products. -/
lemma good_bounds (a : Agency) (h : GoodAgency a) :
    0 ≤ (mulOpt a.FTSWORN a.WEIGHT).getD 0
    ∧ 0 ≤ (mulOpt a.PERS_FEMALE a.WEIGHT).getD 0
    ∧ (mulOpt a.PERS_FEMALE a.WEIGHT).getD 0 ≤ (mulOpt a.FTSWORN a.WEIGHT).getD 0
    ∧ 0 ≤ (mulOpt a.PERS_BLACK_FEM a.WEIGHT).getD 0
    ∧ 0 ≤ (mulOpt a.PERS_BLACK_MALE a.WEIGHT).getD 0
    ∧ (mulOpt a.PERS_BLACK_FEM a.WEIGHT).getD 0
        + (mulOpt a.PERS_BLACK_MALE a.WEIGHT).getD 0
        ≤ (mulOpt a.FTSWORN a.WEIGHT).getD 0
    ∧ 0 ≤ (mulOpt a.PERS_HISP_FEM a.WEIGHT).getD 0
    ∧ 0 ≤ (mulOpt a.PERS_HISP_MALE a.WEIGHT).getD 0
    ∧ (mulOpt a.PERS_HISP_FEM a.WEIGHT).getD 0
        + (mulOpt a.PERS_HISP_MALE a.WEIGHT).getD 0
        ≤ (mulOpt a.FTSWORN a.WEIGHT).getD 0
    ∧ 0 ≤ a.WEIGHT.getD 0 := by
  rcases h with ⟨ft, w, pf, bf, bm, hfv, hmv, eft, ew, epf, ebf, ebm, ehf, ehm,
    hw, hft0, hpf0, hpfle, hbf0, hbm0, hble, hhf0, hhm0, hhle⟩
  rw [eft, ew, epf, ebf, ebm, ehf, ehm]
  simp only [mulOpt, Option.getD_some]
  have hw0 : 0 ≤ w := le_of_lt hw
  refine ⟨mul_nonneg hft0 hw0, mul_nonneg hpf0 hw0,
    mul_le_mul_of_nonneg_right hpfle hw0, mul_nonneg hbf0 hw0,
    mul_nonneg hbm0 hw0, ?_, mul_nonneg hhf0 hw0, mul_nonneg hhm0 hw0, ?_, hw0⟩
  · calc bf * w + bm * w = (bf + bm) * w := by ring
      _ ≤ ft * w := mul_le_mul_of_nonneg_right hble hw0
  · calc hfv * w + hmv * w = (hfv + hmv) * w := by ring
      _ ≤ ft * w := mul_le_mul_of_nonneg_right hhle hw0

lemma harmonize_good (l : List Agency) (h : ∀ a ∈ l, GoodAgency a) :
    ∀ b ∈ harmonizeRows l, GoodAgency b := by
  intro b hb
  unfold harmonizeRows at hb
  split at hb
  · rcases List.mem_map.mp hb with ⟨a, ha, rfl⟩
    exact h a ha
  · exact h b hb

/-- C7 counterexample: an agency reporting 10 female officers out of 1
full-time sworn, with weight 1, makes `%_FEMALE` equal to 10 — neither in
[0,1] nor the undefined marker. -/
theorem ratio_range_counterexample :
    (read_lemas_weight [agencyBig] true 2016).map (·.PCT_FEMALE) = [PFloat.val 10]
    ∧ pfInUnit (PFloat.val 10) = false := by
  have hstates :
      statesOf (harmonizeRows (retainedRows [agencyBig] true)) = ["YY"] := by
    norm_num [statesOf, retainedRows, harmonizeRows, strataMaxGT15, seriesMax,
      keepRow, optGT, optGE, agencyBig, blankAgency, List.filter, List.foldr,
      List.dedup_cons_of_not_mem, List.mergeSort_singleton]
  refine ⟨?_, by decide⟩
  unfold read_lemas_weight aggregateRetained
  rw [hstates]
  norm_num [stateRow, groupRows, wsum, mulOpt, nansum, retainedRows, keepRow,
    optGT, optGE, harmonizeRows, strataMaxGT15, seriesMax, agencyBig,
    blankAgency, List.filter, List.filterMap, List.foldr, pdiv]

/-- C7 (amended): when every retained agency is well-formed — demographic
counts present, non-negative and no larger than the full-time-sworn count,
and survey weight present and positive — every output value of `%_FEMALE`,
`%_BLACK`, `%_HISP`, `CCRB` and `CFDBK_POLICY` lies in [0,1] or is the
explicit undefined marker NaN.  Without the subgroup-consistency condition
the claim fails (see the counterexample). -/
theorem ratio_range_invariant (rows : List Agency) (hasComplete : Bool)
    (year : ℤ)
    (hgood : ∀ a ∈ retainedRows rows hasComplete, GoodAgency a) :
    ∀ r ∈ read_lemas_weight rows hasComplete year,
      pfInUnit r.PCT_FEMALE = true ∧ pfInUnit r.PCT_BLACK = true
      ∧ pfInUnit r.PCT_HISP = true ∧ pfInUnit r.CCRB = true
      ∧ pfInUnit r.CFDBK_POLICY = true := by
  intro r hr
  rcases mem_read_lemas_weight.mp hr with ⟨s, hs, rfl⟩
  have hgoodL : ∀ a ∈ harmonizeRows (retainedRows rows hasComplete), GoodAgency a :=
    harmonize_good _ hgood
  have hgoodg : ∀ a ∈ groupRows (harmonizeRows (retainedRows rows hasComplete)) s,
      GoodAgency a :=
    fun a ha => hgoodL a (List.mem_of_mem_filter ha)
  have hwpos : ∀ a ∈ groupRows (harmonizeRows (retainedRows rows hasComplete)) s,
      0 ≤ a.WEIGHT.getD 0 :=
    fun a ha => (good_bounds a (hgoodg a ha)).2.2.2.2.2.2.2.2.2
  refine ⟨?_, ?_, ?_, ?_, ?_⟩
  · show pfInUnit (pdiv (wsum (groupRows (harmonizeRows (retainedRows rows hasComplete)) s) (·.PERS_FEMALE))
        (wsum (groupRows (harmonizeRows (retainedRows rows hasComplete)) s) (·.FTSWORN))) = true
    refine pfInUnit_pdiv ?_ ?_
    · exact wsum_nonneg _ _ (fun a ha => (good_bounds a (hgoodg a ha)).2.1)
    · exact wsum_le_wsum _ _ _ (fun a ha => (good_bounds a (hgoodg a ha)).2.2.1)
  · show pfInUnit (pdiv (wsum (groupRows (harmonizeRows (retainedRows rows hasComplete)) s) (·.PERS_BLACK_FEM)
          + wsum (groupRows (harmonizeRows (retainedRows rows hasComplete)) s) (·.PERS_BLACK_MALE))
        (wsum (groupRows (harmonizeRows (retainedRows rows hasComplete)) s) (·.FTSWORN))) = true
    refine pfInUnit_pdiv ?_ ?_
    · have h1 := wsum_nonneg (groupRows (harmonizeRows (retainedRows rows hasComplete)) s)
        (fun a => a.PERS_BLACK_FEM) (fun a ha => (good_bounds a (hgoodg a ha)).2.2.2.1)
      have h2 := wsum_nonneg (groupRows (harmonizeRows (retainedRows rows hasComplete)) s)
        (fun a => a.PERS_BLACK_MALE) (fun a ha => (good_bounds a (hgoodg a ha)).2.2.2.2.1)
      linarith
    · exact wsum_add_le_wsum _ _ _ _
        (fun a ha => (good_bounds a (hgoodg a ha)).2.2.2.2.2.1)
  · show pfInUnit (pdiv (wsum (groupRows (harmonizeRows (retainedRows rows hasComplete)) s) (·.PERS_HISP_FEM)
          + wsum (groupRows (harmonizeRows (retainedRows rows hasComplete)) s) (·.PERS_HISP_MALE))
        (wsum (groupRows (harmonizeRows (retainedRows rows hasComplete)) s) (·.FTSWORN))) = true
    refine pfInUnit_pdiv ?_ ?_
    · have h1 := wsum_nonneg (groupRows (harmonizeRows (retainedRows rows hasComplete)) s)
        (fun a => a.PERS_HISP_FEM) (fun a ha => (good_bounds a (hgoodg a ha)).2.2.2.2.2.2.1)
      have h2 := wsum_nonneg (groupRows (harmonizeRows (retainedRows rows hasComplete)) s)
        (fun a => a.PERS_HISP_MALE) (fun a ha => (good_bounds a (hgoodg a ha)).2.2.2.2.2.2.2.1)
      linarith
    · exact wsum_add_le_wsum _ _ _ _
        (fun a ha => (good_bounds a (hgoodg a ha)).2.2.2.2.2.2.2.2.1)
  · show pfInUnit (weighted_binary
        ((groupRows (harmonizeRows (retainedRows rows hasComplete)) s).map (·.CCRB))
        ((groupRows (harmonizeRows (retainedRows rows hasComplete)) s).map (·.WEIGHT))) = true
    rw [weighted_binary_group]
    refine pfInUnit_pdiv ?_ ?_
    · refine nansum_nonneg ?_
      intro o ho
      rcases List.mem_map.mp ho with ⟨a, ha, rfl⟩
      exact hwpos a (List.mem_of_mem_filter ha)
    · exact nansum_filter_map_le _ _ _ hwpos
  · show pfInUnit (weighted_binary
        ((groupRows (harmonizeRows (retainedRows rows hasComplete)) s).map (·.CFDBK_POLICY))
        ((groupRows (harmonizeRows (retainedRows rows hasComplete)) s).map (·.WEIGHT))) = true
    rw [weighted_binary_group]
    refine pfInUnit_pdiv ?_ ?_
    · refine nansum_nonneg ?_
      intro o ho
      rcases List.mem_map.mp ho with ⟨a, ha, rfl⟩
      exact hwpos a (List.mem_of_mem_filter ha)
    · exact nansum_filter_map_le _ _ _ hwpos

/-- Witness for C7: a single well-formed agency yields values all in range or
NaN. -/
theorem ratio_range_invariant_witness :
    (∀ a ∈ retainedRows [agencyGood] true, GoodAgency a)
    ∧ ∀ r ∈ read_lemas_weight [agencyGood] true 2016,
        pfInUnit r.PCT_FEMALE = true ∧ pfInUnit r.PCT_BLACK = true
        ∧ pfInUnit r.PCT_HISP = true ∧ pfInUnit r.CCRB = true
        ∧ pfInUnit r.CFDBK_POLICY = true := by
  have hgood : ∀ a ∈ retainedRows [agencyGood] true, GoodAgency a := by
    have hret : retainedRows [agencyGood] true = [agencyGood] := by
      norm_num [retainedRows, keepRow, optGT, optGE, agencyGood, blankAgency,
        List.filter]
    rw [hret]
    intro a ha
    rw [List.mem_singleton] at ha
    subst ha
    exact ⟨10, 2, 3, 1, 2, 1, 1, rfl, rfl, rfl, rfl, rfl, rfl, rfl,
      by norm_num, by norm_num, by norm_num, by norm_num, by norm_num,
      by norm_num, by norm_num, by norm_num, by norm_num, by norm_num⟩
  exact ⟨hgood, ratio_range_invariant [agencyGood] true 2016 hgood⟩

lemma string_append_left_cancel {p c1 c2 : String} (h : p ++ c1 = p ++ c2) :
    c1 = c2 := by
  apply String.ext
  have hd := congrArg String.data h
  rw [String.data_append, String.data_append] at hd
  exact List.append_cancel_left hd

/-- Behavior of the `apply_weight` fold when no prefixed target collides with
an existing column: reads during the loop always see the original frame. -/
lemma apply_weight_spec (weight_col pre : String) :
    ∀ (columns : List String) (df : DataFrame),
      (∀ c ∈ columns, df (pre ++ c) = none) →
      (∀ c ∈ columns, df c ≠ none) →
      df weight_col ≠ none →
      (∀ n, (∀ c ∈ columns, n ≠ pre ++ c) →
          apply_weight df columns weight_col pre n = df n)
      ∧ (∀ c ∈ columns, apply_weight df columns weight_col pre (pre ++ c)
          = some (mulColumn ((df c).getD []) ((df weight_col).getD []))) := by
  intro columns
  induction columns using List.reverseRecOn with
  | nil =>
    intro df _ _ _
    exact ⟨fun n _ => rfl, fun c hc => absurd hc (List.not_mem_nil c)⟩
  | append_singleton cs c ih =>
    intro df hfresh hcols hw
    obtain ⟨ih1, ih2⟩ := ih df
      (fun c' hc' => hfresh c' (List.mem_append_left _ hc'))
      (fun c' hc' => hcols c' (List.mem_append_left _ hc')) hw
    have hcmem : c ∈ cs ++ [c] := List.mem_append_right _ (List.mem_singleton.mpr rfl)
    have hAc : apply_weight df cs weight_col pre c = df c := by
      apply ih1
      intro c' hc' he
      exact hcols c hcmem (by rw [he]; exact hfresh c' (List.mem_append_left _ hc'))
    have hAw : apply_weight df cs weight_col pre weight_col = df weight_col := by
      apply ih1
      intro c' hc' he
      exact hw (by rw [he]; exact hfresh c' (List.mem_append_left _ hc'))
    have hstep : apply_weight df (cs ++ [c]) weight_col pre
        = setCol (apply_weight df cs weight_col pre) (pre ++ c)
            (mulColumn ((df c).getD []) ((df weight_col).getD [])) := by
      unfold apply_weight
      rw [List.foldl_concat]
      unfold apply_weight at hAc hAw
      rw [hAc, hAw]
    constructor
    · intro n hn
      rw [hstep]
      unfold setCol
      rw [if_neg (hn c hcmem)]
      exact ih1 n (fun c' hc' => hn c' (List.mem_append_left _ hc'))
    · intro c' hc'
      rcases List.mem_append.mp hc' with hc2 | hc2
      · by_cases he : pre ++ c' = pre ++ c
        · have hcc : c' = c := string_append_left_cancel he
          subst hcc
          rw [hstep]
          unfold setCol
          rw [if_pos rfl]
        · rw [hstep]
          unfold setCol
          rw [if_neg he]
          exact ih2 c' hc2
      · rw [List.mem_singleton] at hc2
        subst hc2
        rw [hstep]
        unfold setCol
        rw [if_pos rfl]

/-- C9 counterexample: when the frame already has a column named `W_X`,
`apply_weight(df, ["X"], "FINALWGT", "W_")` overwrites it, so a column that
existed before the call does not keep its prior values. -/
theorem apply_weight_overwrite_counterexample :
    dfOverwrite "W_X" = some [some 5]
    ∧ apply_weight dfOverwrite ["X"] "FINALWGT" "W_" "W_X" = some [some 6]
    ∧ apply_weight dfOverwrite ["X"] "FINALWGT" "W_" "W_X" ≠ dfOverwrite "W_X" := by
  have happ : ("W_" ++ "X" : String) = "W_X" := by decide
  have heval : apply_weight dfOverwrite ["X"] "FINALWGT" "W_" "W_X" = some [some 6] := by
    norm_num [apply_weight, List.foldl, setCol, happ, mulColumn, mulOpt,
      List.zipWith, dfOverwrite]
  refine ⟨by decide, heval, ?_⟩
  rw [heval]
  decide

/-- C9 (amended): provided no prefixed name `pre ++ c` already exists as a
column, and the listed columns and the weight column do exist, `apply_weight`
returns the frame extended with, for each `c`, a new column `pre ++ c` whose
entries are `df[c] * df[weight_col]`, while every pre-existing column keeps
exactly its prior values.  (In Python the update happens in place on the
caller's object; the embedding states the resulting column values.)  When a
prefixed name collides with an existing column, that column is overwritten
instead (see the counterexample). -/
theorem apply_weight_adds_weighted_columns (df : DataFrame)
    (columns : List String) (weight_col pre : String)
    (hfresh : ∀ c ∈ columns, df (pre ++ c) = none)
    (hcols : ∀ c ∈ columns, df c ≠ none)
    (hw : df weight_col ≠ none) :
    (∀ n, df n ≠ none → apply_weight df columns weight_col pre n = df n)
    ∧ (∀ c ∈ columns, apply_weight df columns weight_col pre (pre ++ c)
        = some (mulColumn ((df c).getD []) ((df weight_col).getD []))) := by
  obtain ⟨h1, h2⟩ := apply_weight_spec weight_col pre columns df hfresh hcols hw
  refine ⟨?_, h2⟩
  intro n hn
  apply h1
  intro c hc he
  exact hn (by rw [he]; exact hfresh c hc)

/-- Witness for C9: on a frame with columns `X` and `FINALWGT` only, the call
keeps `X` intact and adds `W_X` with the entrywise product. -/
theorem apply_weight_adds_weighted_columns_witness :
    apply_weight dfFresh ["X"] "FINALWGT" "W_" "X" = some [some 2]
    ∧ apply_weight dfFresh ["X"] "FINALWGT" "W_" ("W_" ++ "X") = some [some 6] := by
  obtain ⟨h1, h2⟩ := apply_weight_adds_weighted_columns dfFresh ["X"] "FINALWGT"
    "W_" (by decide) (by decide) (by decide)
  constructor
  · rw [h1 "X" (by decide)]
    decide
  · rw [h2 "X" (List.mem_singleton.mpr rfl)]
    norm_num [dfFresh, mulColumn, mulOpt, List.zipWith]

/-- C8: the claim says an empty input record set yields an empty, well-typed
output and no error.  The code instead fails: with zero rows the filter keeps
nothing, the groupby-apply has zero groups and never creates the
`CCRB`/`CFDBK_POLICY` columns, and the merge/column lookups raise a KeyError,
for either filter setting and any year. -/
theorem empty_input_raises (hasComplete : Bool) (year : ℤ) :
    read_lemas_weight_checked [] hasComplete year = .error "KeyError" := by
  cases hasComplete <;> rfl

end Lemas
